import Mathlib

set_option maxHeartbeats 1000000
set_option linter.unusedVariables false

/-!
Shallow embedding of the blamebot repository (src/hook.py and
src/capture_prompt.py).  Python strings are modelled as Lean `String`
(lists of unicode codepoints, matching Python's codepoint-indexed
slicing); Python dict `.get` defaulting is modelled by structure fields
whose absent value is the Python default at every use site (`""`, `[]`),
except where the code distinguishes `None` from a present value
(`structuredPatch` entries use `Option Nat`).  Machine-level 32-bit
arithmetic in the SHA-256 model is `Nat` with explicit `% 2^32`.
-/

/-! ### Python string primitives -/

/-- The ASCII whitespace characters recognised by Python's `str.split()` /
`str.strip()` (the model restricts Python's unicode whitespace class to
its ASCII members, which are the only ones the repository's inputs use). -/
def isPySpace (c : Char) : Bool :=
  c = ' ' || c = '\t' || c = '\n' || c = '\r' || c = '\x0b' || c = '\x0c'

/-- Python truthiness chaining `a or b` for strings: `""` is falsy. -/
def pyOrS (a b : String) : String := if a = "" then b else a

/-- Helper for Python `str.split()`: accumulate the current token
(reversed) and emit it at each whitespace run / end of input. -/
def splitWsAux : List Char → List Char → List (List Char)
  | [], acc => if acc.isEmpty then [] else [acc.reverse]
  | c :: cs, acc =>
    if isPySpace c then
      if acc.isEmpty then splitWsAux cs [] else acc.reverse :: splitWsAux cs []
    else splitWsAux cs (c :: acc)

/-- Python `text.split()` (split on whitespace runs, no empty tokens). -/
def splitWs (l : List Char) : List (List Char) := splitWsAux l []

/-- Python `" ".join(text.split())`, the normalisation inside
`content_hash` (src/hook.py line 62). -/
def pyNormalize (s : String) : String :=
  String.mk (List.intercalate [' '] (splitWs s.data))

/-- Collapse every maximal whitespace run to a single space; the flag
records whether the previous character was whitespace.  This is the
spec's notion "equal after collapsing all whitespace runs to single
spaces" used to state claim C4. -/
def collapseWsAux : Bool → List Char → List Char
  | _, [] => []
  | prev, c :: cs =>
    if isPySpace c then
      if prev then collapseWsAux true cs else ' ' :: collapseWsAux true cs
    else c :: collapseWsAux false cs

/-- Collapse whitespace runs to single spaces (spec wording for C4). -/
def collapseWs (l : List Char) : List Char := collapseWsAux false l

/-! ### SHA-256 over Nat (model of Python's hashlib.sha256)

`hashlib.sha256(...).hexdigest()` from the Python standard library,
implemented over `Nat` with explicit reduction modulo `2^32`. -/

def w32 (n : Nat) : Nat := n % 4294967296

def rotr32 (n x : Nat) : Nat := w32 (x / 2 ^ n + x % 2 ^ n * 2 ^ (32 - n))

def shr32 (n x : Nat) : Nat := x / 2 ^ n

def bnot32 (x : Nat) : Nat := 4294967295 ^^^ w32 x

def chF (x y z : Nat) : Nat := (x &&& y) ^^^ (bnot32 x &&& z)

def majF (x y z : Nat) : Nat := (x &&& y) ^^^ (x &&& z) ^^^ (y &&& z)

def bigS0 (x : Nat) : Nat := rotr32 2 x ^^^ rotr32 13 x ^^^ rotr32 22 x

def bigS1 (x : Nat) : Nat := rotr32 6 x ^^^ rotr32 11 x ^^^ rotr32 25 x

def smallS0 (x : Nat) : Nat := rotr32 7 x ^^^ rotr32 18 x ^^^ shr32 3 x

def smallS1 (x : Nat) : Nat := rotr32 17 x ^^^ rotr32 19 x ^^^ shr32 10 x

/-- The 64 SHA-256 round constants (FIPS 180-4), written in decimal. -/
def shaK : List Nat :=
  [1116352408, 1899447441, 3049323471, 3921009573,
   961987163, 1508970993, 2453635748, 2870763221,
   3624381080, 310598401, 607225278, 1426881987,
   1925078388, 2162078206, 2614888103, 3248222580,
   3835390401, 4022224774, 264347078, 604807628,
   770255983, 1249150122, 1555081692, 1996064986,
   2554220882, 2821834349, 2952996808, 3210313671,
   3336571891, 3584528711, 113926993, 338241895,
   666307205, 773529912, 1294757372, 1396182291,
   1695183700, 1986661051, 2177026350, 2456956037,
   2730485921, 2820302411, 3259730800, 3345764771,
   3516065817, 3600352804, 4094571909, 275423344,
   430227734, 506948616, 659060556, 883997877,
   958139571, 1322822218, 1537002063, 1747873779,
   1955562222, 2024104815, 2227730452, 2361852424,
   2428436474, 2756734187, 3204031479, 3329325298]

structure Sha256State where
  a : Nat
  b : Nat
  c : Nat
  d : Nat
  e : Nat
  f : Nat
  g : Nat
  h : Nat

/-- The SHA-256 initial hash value (FIPS 180-4), written in decimal. -/
def shaInit : Sha256State :=
  ⟨1779033703, 3144134277, 1013904242, 2773480762,
   1359893119, 2600822924, 528734635, 1541459225⟩

/-- One SHA-256 compression round; `kw` is `K[t] + W[t]`. -/
def shaRound (s : Sha256State) (kw : Nat) : Sha256State :=
  let t1 := w32 (s.h + bigS1 s.e + chF s.e s.f s.g + kw)
  let t2 := w32 (bigS0 s.a + majF s.a s.b s.c)
  ⟨w32 (t1 + t2), s.a, s.b, s.c, w32 (s.d + t1), s.e, s.f, s.g⟩

/-- SHA-256 message padding: append 0x80, zero bytes to 56 mod 64, and
the 64-bit big-endian bit length. -/
def shaPad (m : List Nat) : List Nat :=
  let len := m.length
  let zeros := (119 - len % 64) % 64
  let bl := 8 * len
  m ++ 128 :: List.replicate zeros 0 ++
    [bl / 2 ^ 56 % 256, bl / 2 ^ 48 % 256, bl / 2 ^ 40 % 256, bl / 2 ^ 32 % 256,
     bl / 2 ^ 24 % 256, bl / 2 ^ 16 % 256, bl / 2 ^ 8 % 256, bl % 256]

/-- Split a byte list into 64-byte blocks. -/
def toBlocks : List Nat → List (List Nat)
  | [] => []
  | c :: cs => (c :: cs).take 64 :: toBlocks ((c :: cs).drop 64)
termination_by l => l.length
decreasing_by
  simp only [List.length_drop, List.length_cons]
  omega

/-- The 16 big-endian 32-bit words of one 64-byte block. -/
def blockWords (b : List Nat) : List Nat :=
  (List.range 16).map fun i =>
    b.getD (4 * i) 0 * 2 ^ 24 + b.getD (4 * i + 1) 0 * 2 ^ 16 +
      b.getD (4 * i + 2) 0 * 2 ^ 8 + b.getD (4 * i + 3) 0

/-- Extend the 16 message words by `n` further schedule words. -/
def extendW : List Nat → Nat → List Nat
  | ws, 0 => ws
  | ws, n + 1 =>
    let v := extendW ws n
    let t := w32 (smallS1 (v.getD (v.length - 2) 0) + v.getD (v.length - 7) 0 +
      smallS0 (v.getD (v.length - 15) 0) + v.getD (v.length - 16) 0)
    v ++ [t]

/-- The 64-entry SHA-256 message schedule of one block. -/
def scheduleW (b : List Nat) : List Nat := extendW (blockWords b) 48

/-- Compress one 64-byte block into the running state. -/
def shaCompress (st : Sha256State) (b : List Nat) : Sha256State :=
  let s := (shaK.zip (scheduleW b)).foldl (fun s p => shaRound s (p.1 + p.2)) st
  ⟨w32 (st.a + s.a), w32 (st.b + s.b), w32 (st.c + s.c), w32 (st.d + s.d),
   w32 (st.e + s.e), w32 (st.f + s.f), w32 (st.g + s.g), w32 (st.h + s.h)⟩

/-- SHA-256 of a byte list, as the final eight-word state. -/
def sha256words (m : List Nat) : Sha256State :=
  (toBlocks (shaPad m)).foldl shaCompress shaInit

/-- Lower-case hex digit. -/
def hexDigit (n : Nat) : Char :=
  if n < 10 then Char.ofNat (48 + n) else Char.ofNat (87 + n)

/-- Eight-digit hex rendering of one 32-bit word (fixed width). -/
def toHex32 (x : Nat) : List Char :=
  [hexDigit (x / 2 ^ 28 % 16), hexDigit (x / 2 ^ 24 % 16),
   hexDigit (x / 2 ^ 20 % 16), hexDigit (x / 2 ^ 16 % 16),
   hexDigit (x / 2 ^ 12 % 16), hexDigit (x / 2 ^ 8 % 16),
   hexDigit (x / 2 ^ 4 % 16), hexDigit (x % 16)]

/-- `hashlib.sha256(bytes).hexdigest()`: 64 lower-case hex characters. -/
def sha256hex (m : List Nat) : List Char :=
  let s := sha256words m
  toHex32 s.a ++ toHex32 s.b ++ toHex32 s.c ++ toHex32 s.d ++
    toHex32 s.e ++ toHex32 s.f ++ toHex32 s.g ++ toHex32 s.h

/-- Python `text.encode()` (UTF-8 bytes). -/
def utf8Bytes (s : String) : List Nat := s.toUTF8.toList.map fun b => b.toNat

/-- src/hook.py lines 59-63: `content_hash`.  Empty text yields `""`;
otherwise the first 16 hex characters of the SHA-256 of the
whitespace-normalised text. -/
def content_hash (text : String) : String :=
  if text = "" then ""
  else String.mk ((sha256hex (utf8Bytes (pyNormalize text))).take 16)

/-! ### Sanitizer (src/capture_prompt.py lines 62-66)

`clean_prompt` applies two `re.sub(..., '', ..., flags=re.DOTALL)` passes:
first the literal pattern `<ide_opened_file>.*?</ide_opened_file>\s*`,
then the generic pattern `<ide_\w+>.*?</ide_\w+>\s*`, and finally
`.strip()`.  The non-greedy `.*?` body is modelled by scanning for the
first position at which the closing pattern matches; `re.sub` scanning
is modelled by moving one character on failure and past the whole match
on success.  `\w` is modelled as ASCII alphanumerics plus underscore. -/

/-- Match a literal character sequence, returning the remainder. -/
def matchLit : List Char → List Char → Option (List Char)
  | [], l => some l
  | _ :: _, [] => none
  | p :: ps, c :: cs => if c = p then matchLit ps cs else none

def openMark : List Char := "<ide_".data

def open1Tag : List Char := "<ide_opened_file>".data

def close1Tag : List Char := "</ide_opened_file>".data

def closeMark : List Char := "</ide_".data

/-- Python regex `\w`, restricted to ASCII. -/
def isWordChar (c : Char) : Bool := c.isAlphanum || c = '_'

/-- Match `\w+>` (a nonempty word-character run followed by `>`). -/
def wordRunThenGt (l : List Char) : Option (List Char) :=
  if (l.takeWhile isWordChar).isEmpty then none
  else
    match l.dropWhile isWordChar with
    | '>' :: rest => some rest
    | _ => none

/-- Match the generic closing tag `</ide_\w+>` at this position. -/
def close2At (l : List Char) : Option (List Char) :=
  (matchLit closeMark l).bind wordRunThenGt

/-- Scan for the first position where the literal closing tag matches
(the non-greedy `.*?` semantics), returning the remainder after it. -/
def findCloseLit (p : List Char) : List Char → Option (List Char)
  | [] => none
  | c :: cs =>
    match matchLit p (c :: cs) with
    | some rest => some rest
    | none => findCloseLit p cs

/-- Scan for the first position where `</ide_\w+>` matches. -/
def findClose2 : List Char → Option (List Char)
  | [] => none
  | c :: cs =>
    match close2At (c :: cs) with
    | some rest => some rest
    | none => findClose2 cs

/-- Full match of `<ide_opened_file>.*?</ide_opened_file>\s*` at this
position, returning the remainder after the match. -/
def span1At (l : List Char) : Option (List Char) :=
  (matchLit open1Tag l).bind fun r =>
    (findCloseLit close1Tag r).map fun r2 => r2.dropWhile isPySpace

/-- Full match of `<ide_\w+>.*?</ide_\w+>\s*` at this position. -/
def span2At (l : List Char) : Option (List Char) :=
  (matchLit openMark l).bind fun r =>
    (wordRunThenGt r).bind fun r2 =>
      (findClose2 r2).map fun r3 => r3.dropWhile isPySpace

/-- `re.sub` with pattern 1: remove every (leftmost, non-overlapping)
match of the opened-file tag span. -/
def sub_spans1 : List Char → List Char
  | [] => []
  | c :: cs =>
    match hsp : span1At (c :: cs) with
    | some rest => sub_spans1 rest
    | none => c :: sub_spans1 cs
termination_by l => l.length
decreasing_by
  · have hlit : ∀ (p l r : List Char), matchLit p l = some r →
        r.length + p.length = l.length := by
      intro p
      induction p with
      | nil =>
        intro l r hr
        simp only [matchLit, Option.some.injEq] at hr
        simp [hr]
      | cons a as ih =>
        intro l r hr
        cases l with
        | nil => simp [matchLit] at hr
        | cons x xs =>
          by_cases hx : x = a
          · simp only [matchLit, if_pos hx] at hr
            have := ih xs r hr
            simp only [List.length_cons]
            omega
          · simp [matchLit, hx] at hr
    have hdw : ∀ (q : Char → Bool) (l : List Char),
        (l.dropWhile q).length ≤ l.length := by
      intro q l
      induction l with
      | nil => simp [List.dropWhile]
      | cons x xs ih =>
        by_cases hx : q x
        · simp only [List.dropWhile, hx]
          simp only [List.length_cons]
          omega
        · simp [List.dropWhile, hx]
    have hfc : ∀ (l r : List Char), findCloseLit close1Tag l = some r →
        r.length ≤ l.length := by
      intro l
      induction l with
      | nil => intro r hr; simp [findCloseLit] at hr
      | cons x xs ih =>
        intro r hr
        simp only [findCloseLit] at hr
        cases hm : matchLit close1Tag (x :: xs) with
        | some rest =>
          rw [hm] at hr
          cases hr
          have := hlit close1Tag (x :: xs) r hm
          omega
        | none =>
          rw [hm] at hr
          have := ih r hr
          simp only [List.length_cons]
          omega
    simp only [span1At, Option.bind_eq_bind, Option.bind_eq_some,
      Option.map_eq_some'] at hsp
    obtain ⟨r1, hr1, r2, hr2, hrest⟩ := hsp
    have h1 := hlit open1Tag (c :: cs) r1 hr1
    have h2 := hfc r1 r2 hr2
    have h3 := hdw isPySpace r2
    have hop : open1Tag.length = 17 := by decide
    rw [← hrest]
    simp only [List.length_cons] at h1 ⊢
    omega
  · simp

/-- `re.sub` with pattern 2: remove every match of the generic
`<ide_\w+>...</ide_\w+>` span. -/
def sub_spans2 : List Char → List Char
  | [] => []
  | c :: cs =>
    match hsp : span2At (c :: cs) with
    | some rest => sub_spans2 rest
    | none => c :: sub_spans2 cs
termination_by l => l.length
decreasing_by
  · have hlit : ∀ (p l r : List Char), matchLit p l = some r →
        r.length + p.length = l.length := by
      intro p
      induction p with
      | nil =>
        intro l r hr
        simp only [matchLit, Option.some.injEq] at hr
        simp [hr]
      | cons a as ih =>
        intro l r hr
        cases l with
        | nil => simp [matchLit] at hr
        | cons x xs =>
          by_cases hx : x = a
          · simp only [matchLit, if_pos hx] at hr
            have := ih xs r hr
            simp only [List.length_cons]
            omega
          · simp [matchLit, hx] at hr
    have hdw : ∀ (q : Char → Bool) (l : List Char),
        (l.dropWhile q).length ≤ l.length := by
      intro q l
      induction l with
      | nil => simp [List.dropWhile]
      | cons x xs ih =>
        by_cases hx : q x
        · simp only [List.dropWhile, hx]
          simp only [List.length_cons]
          omega
        · simp [List.dropWhile, hx]
    have hwr : ∀ (l r : List Char), wordRunThenGt l = some r →
        r.length < l.length := by
      intro l r hr
      have hdwl := hdw isWordChar l
      simp only [wordRunThenGt] at hr
      split at hr
      · simp at hr
      · split at hr
        · rename_i rest heq
          cases hr
          rw [heq] at hdwl
          simp only [List.length_cons] at hdwl
          omega
        · simp at hr
    have hc2 : ∀ (l r : List Char), close2At l = some r → r.length ≤ l.length := by
      intro l r hr
      simp only [close2At, Option.bind_eq_bind, Option.bind_eq_some] at hr
      obtain ⟨m, hm, hw⟩ := hr
      have h1 := hlit closeMark l m hm
      have h2 := hwr m r hw
      omega
    have hfc : ∀ (l r : List Char), findClose2 l = some r → r.length ≤ l.length := by
      intro l
      induction l with
      | nil => intro r hr; simp [findClose2] at hr
      | cons x xs ih =>
        intro r hr
        simp only [findClose2] at hr
        cases hm : close2At (x :: xs) with
        | some rest =>
          rw [hm] at hr
          cases hr
          have := hc2 (x :: xs) r hm
          omega
        | none =>
          rw [hm] at hr
          have := ih r hr
          simp only [List.length_cons]
          omega
    simp only [span2At, Option.bind_eq_bind, Option.bind_eq_some,
      Option.map_eq_some'] at hsp
    obtain ⟨r1, hr1, r2, hr2, r3, hr3, hrest⟩ := hsp
    have h1 := hlit openMark (c :: cs) r1 hr1
    have h2 := hwr r1 r2 hr2
    have h3 := hfc r2 r3 hr3
    have h4 := hdw isPySpace r3
    have hop : openMark.length = 5 := by decide
    rw [← hrest]
    simp only [List.length_cons] at h1 ⊢
    omega
  · simp

/-- Python `.strip()` from the left. -/
def trimLeftWs (l : List Char) : List Char := l.dropWhile isPySpace

/-- Python `.strip()` from the right. -/
def trimRightWs (l : List Char) : List Char := (l.reverse.dropWhile isPySpace).reverse

/-- Python `.strip()`. -/
def pyStrip (l : List Char) : List Char := trimRightWs (trimLeftWs l)

/-- src/capture_prompt.py lines 62-66: strip IDE metadata tag spans from
the prompt, then trim surrounding whitespace. -/
def clean_prompt (raw_prompt : String) : String :=
  String.mk (pyStrip (sub_spans2 (sub_spans1 raw_prompt.data)))

/-! ### Pending-instruction capture (src/capture_prompt.py lines 69-125)

`main` is modelled from the point where the payload has been parsed and
the feature is initialised; its single externally visible effect is the
state it writes to the handoff slot `current_prompt.json` (last-write-
wins overwrite), so it is modelled as the function computing that state.
Timestamps, the random suffix and the git author are external inputs. -/

structure PromptPayload where
  prompt : String := ""
  session_id : String := ""
  transcript_path : String := ""
deriving DecidableEq

/-- The handoff-slot contents written by src/capture_prompt.py lines
108-116 (field-for-field the `state` dict). -/
structure PromptState where
  prompt : String := ""
  prompt_raw : String := ""
  timestamp : String := ""
  session_file : String := ""
  author : String := ""
  session_id : String := ""
  transcript_path : String := ""
deriving DecidableEq

/-- src/capture_prompt.py line 106: the generated session file name. -/
def session_filename_of (ts rand : String) : String :=
  ts ++ "-" ++ rand ++ ".jsonl"

/-- src/capture_prompt.py `main` (lines 95-123): build and stash the
pending-instruction state. -/
def captureMain (data : PromptPayload) (ts now rand author : String) : PromptState :=
  { prompt := clean_prompt data.prompt,
    prompt_raw := data.prompt,
    timestamp := now,
    session_file := session_filename_of ts rand,
    author := author,
    session_id := data.session_id,
    transcript_path := data.transcript_path }

/-! ### Edit extraction (src/hook.py lines 66-226)

Python dict fields that are only ever read through `.get` with a falsy
default (and only tested for truthiness) are modelled as plain fields
whose absent value is that default; `structuredPatch` entries keep
`Option Nat` because the code distinguishes `newStart is None` from 0. -/

structure SubEdit where
  file_path : String := ""
  old_string : String := ""
  new_string : String := ""
deriving DecidableEq

structure Patch where
  newStart : Option Nat := none
  newLines : Option Nat := none
deriving DecidableEq

structure ToolInput where
  file_path : String := ""
  path : String := ""
  old_string : String := ""
  new_string : String := ""
  content : String := ""
  file_text : String := ""
  edits : List SubEdit := []
  changes : List SubEdit := []
deriving DecidableEq

structure ToolResponse where
  structuredPatch : List Patch := []
deriving DecidableEq

structure Payload where
  tool_name : String := ""
  tool_input : ToolInput := {}
  tool_response : ToolResponse := {}
  session_id : String := ""
  transcript_path : String := ""
  tool_use_id : String := ""
deriving DecidableEq

/-- Python truthiness chaining `a or b` for sub-edit lists. -/
def pyOrL (a b : List SubEdit) : List SubEdit := if a = [] then b else a

/-- src/hook.py lines 66-71: `relativize_path`.
`Path(abs_path).relative_to(project_dir)` is modelled on plain
`/`-separated strings without path normalisation: equal paths give
`"."`, a path under `project_dir ++ "/"` gives the remainder, and
anything else raises `ValueError`, which the code turns into
pass-through of `abs_path`. -/
def relativize_path (abs_path project_dir : String) : String :=
  if abs_path = project_dir then "."
  else
    match matchLit (project_dir.data ++ ['/']) abs_path.data with
    | some rest => String.mk rest
    | none => abs_path

/-- Python `s.replace('\n', ' ')` character substitution. -/
def subNl (c : Char) : Char := if c = '\n' then ' ' else c

/-- The flattened single-line form used by `compact_change_summary`
(newlines to spaces, then `.strip()`). -/
def flattenLine (l : List Char) : List Char := pyStrip (l.map subNl)

/-- The position-wise common-prefix length (src/hook.py lines 100-105:
zip the two strings and count equal characters until the first
mismatch). -/
def commonLen : List Char → List Char → Nat
  | a :: as, b :: bs => if a = b then commonLen as bs + 1 else 0
  | _, _ => 0

/-- src/hook.py lines 74-122: `compact_change_summary` with
`MAX_LEN = 200`. -/
def compact_change_summary (old_str new_str : String) : String :=
  if old_str = "" ∧ ¬ new_str = "" then
    String.mk ("added: ".data ++ (new_str.data.take 200).map subNl)
  else if ¬ old_str = "" ∧ new_str = "" then
    String.mk ("removed: ".data ++ (old_str.data.take 200).map subNl)
  else
    let old_flat := flattenLine old_str.data
    let new_flat := flattenLine new_str.data
    let common := commonLen old_flat new_flat
    let pr :=
      if 20 < common then
        ('…' :: old_flat.drop (max (common - 10) 0),
         '…' :: new_flat.drop (max (common - 10) 0))
      else (old_flat, new_flat)
    let old_display := if 200 < pr.1.length then pr.1.take 200 ++ ['…'] else pr.1
    let new_display := if 200 < pr.2.length then pr.2.take 200 ++ ['…'] else pr.2
    String.mk (old_display ++ " → ".data ++ new_display)

/-- src/hook.py lines 125-145: `extract_line_numbers`.  Reads the first
`structuredPatch` entry of `tool_response`; `newLines` defaults to 0. -/
def extract_line_numbers (data : Payload) : Option Nat × Option Nat :=
  match data.tool_response.structuredPatch with
  | [] => (none, none)
  | patch :: _ =>
    match patch.newStart with
    | some start => (some start, some (start + max (patch.newLines.getD 0 - 1) 0))
    | none => (none, none)

/-- src/hook.py lines 199-204: the line range the MultiEdit branch
computes inline for sub-edit `i` (`newLines` defaults to 1 here). -/
def multiRangeAt (patches : List Patch) (i : Nat) : Option Nat × Option Nat :=
  if h : i < patches.length then
    let p := patches.get ⟨i, h⟩
    match p.newStart with
    | some start => (some start, some (start + max (p.newLines.getD 1 - 1) 0))
    | none => (none, none)
  else (none, none)

/-- One element of the `edits` list built by `extract_edits`. -/
structure EditRec where
  file : String := ""
  line_start : Option Nat := none
  line_end : Option Nat := none
  content_hash : String := ""
  change : String := ""
deriving DecidableEq

/-- src/hook.py lines 148-226: `extract_edits`. -/
def extract_edits (data : Payload) (project_dir : String) : List EditRec :=
  let tool_name := data.tool_name
  let ti := data.tool_input
  let file_path := relativize_path (pyOrS ti.file_path ti.path) project_dir
  if tool_name = "Edit" then
    let rng := extract_line_numbers data
    [{ file := file_path,
       line_start := rng.1,
       line_end := rng.2,
       content_hash := content_hash ti.new_string,
       change := compact_change_summary ti.old_string ti.new_string }]
  else if tool_name = "Write" then
    let content := pyOrS ti.content ti.file_text
    if content = "" then
      [{ file := file_path,
         line_start := some 1,
         line_end := none,
         content_hash := content_hash (String.mk (content.data.take 500)),
         change := "created file" }]
    else
      let n_lines := content.data.count '\n' + 1
      [{ file := file_path,
         line_start := some 1,
         line_end := some n_lines,
         content_hash := content_hash (String.mk (content.data.take 500)),
         change := "created file (" ++ toString n_lines ++ " lines)" }]
  else if tool_name = "MultiEdit" then
    let sub_edits := pyOrL ti.edits ti.changes
    let patches := data.tool_response.structuredPatch
    sub_edits.enum.map fun ie =>
      let rng := multiRangeAt patches ie.1
      { file := relativize_path (pyOrS ie.2.file_path file_path) project_dir,
        line_start := rng.1,
        line_end := rng.2,
        content_hash := content_hash ie.2.new_string,
        change := compact_change_summary ie.2.old_string ie.2.new_string }
  else
    [{ file := pyOrS file_path ("unknown:" ++ tool_name),
       line_start := none,
       line_end := none,
       content_hash := "",
       change := "unknown tool: " ++ tool_name }]

/-! ### Hook entry point (src/hook.py lines 229-330)

`main` is modelled from the point where the payload has been parsed:
its effects are reading the handoff slot (absent / unreadable / corrupt
modelled as `none`) and appending one serialized record per extracted
edit to the session-log file chosen on lines 268-277.  The log
directory is modelled as a map from session file name to the list of
records already in that file; `main` never writes the handoff slot, so
the state component passes through unchanged.  The current time and the
orphan fallback's time/random inputs are external parameters. -/

/-- One JSONL record written by src/hook.py lines 311-324. -/
structure Record where
  ts : String := ""
  file : String := ""
  lines : Option Nat × Option Nat := (none, none)
  content_hash : String := ""
  prompt : String := ""
  reason : String := ""
  change : String := ""
  tool : String := ""
  author : String := ""
  session : String := ""
  trace : String := ""
deriving DecidableEq

/-- src/hook.py line 274: the orphan session file name. -/
def orphan_filename (ts rand : String) : String :=
  ts ++ "-" ++ rand ++ "-orphan.jsonl"

/-- src/hook.py lines 268-275: the session file targeted by this
invocation (the stashed name, or a fresh orphan name when the slot is
absent/corrupt or names no session file). -/
def hookTarget (ps : Option PromptState) (ts rand : String) : String :=
  match ps with
  | some st => if st.session_file = "" then orphan_filename ts rand else st.session_file
  | none => orphan_filename ts rand

/-- src/hook.py lines 284-292: the trace reference. -/
def hookTrace (data : Payload) (ps : Option PromptState) : String :=
  let transcript_path :=
    pyOrS data.transcript_path (match ps with | some st => st.transcript_path | none => "")
  if data.tool_use_id = "" then transcript_path
  else transcript_path ++ "#" ++ data.tool_use_id

/-- src/hook.py lines 294-324: the records appended by this invocation,
one per extracted edit, in order. -/
def hookRecords (data : Payload) (ps : Option PromptState) (now project_dir : String) :
    List Record :=
  let session_id :=
    pyOrS data.session_id (match ps with | some st => st.session_id | none => "")
  let author := match ps with | some st => st.author | none => "unknown"
  let prompt := match ps with | some st => st.prompt | none => ""
  (extract_edits data project_dir).map fun e =>
    { ts := now,
      file := e.file,
      lines := (e.line_start, e.line_end),
      content_hash := e.content_hash,
      prompt := prompt,
      reason := "",
      change := e.change,
      tool := data.tool_name,
      author := author,
      session := session_id,
      trace := hookTrace data ps }

/-- src/hook.py `main` (lines 229-330) on the post-parse path: returns
the (unchanged) handoff slot and the updated log directory, in which the
targeted session file has the new records appended after its existing
lines and every other file is untouched. -/
def hookMain (data : Payload) (ps : Option PromptState) (now ts rand project_dir : String)
    (logs : String → List Record) : Option PromptState × (String → List Record) :=
  (ps, fun name =>
    if name = hookTarget ps ts rand then
      logs name ++ hookRecords data ps now project_dir
    else logs name)

/-! ### Concrete inputs used by witnesses and counterexamples -/

/-- A MultiEdit invocation whose payload carries no `edits`/`changes`
list (both dict keys absent / empty). -/
def multiEmptyPayload : Payload := { tool_name := "MultiEdit" }

/-- An Edit payload carrying the given structured patches. -/
def patchPayload (ps : List Patch) : Payload :=
  { tool_name := "Edit", tool_response := { structuredPatch := ps } }

/-- A Write invocation creating a four-line file. -/
def writePayload : Payload :=
  { tool_name := "Write",
    tool_input := { file_path := "/proj/a.py", content := "a\nb\nc\nd" } }

/-- A tool invocation of a kind `extract_edits` does not recognise,
with no file path supplied. -/
def unknownPayload : Payload := { tool_name := "Grep" }

/-- An Edit invocation on `src/a.py`, with one structured patch. -/
def editPayload : Payload :=
  { tool_name := "Edit",
    tool_input := { file_path := "/proj/src/a.py", old_string := "x", new_string := "y" },
    tool_response := { structuredPatch := [{ newStart := some 3, newLines := some 1 }] },
    session_id := "sess-1",
    transcript_path := "/tmp/t.jsonl",
    tool_use_id := "tu-9" }

/-- The instruction event "fix bug". -/
def fixBugPrompt : PromptPayload :=
  { prompt := "fix bug", session_id := "sess-1", transcript_path := "/tmp/t.jsonl" }

/-- An empty log directory. -/
def emptyLogs : String → List Record := fun _ => []

/-! ### Occurrence freedom (used to state claim C9) -/

/-- The literal `p` matches at no position of `l`.  With
`p = openMark = "<ide_"` this formalises "text containing no recognized
markup spans": both sanitizer patterns can only match where the opener
literal `<ide_` occurs, so such a text contains no span (not even an
unterminated fragment of one). -/
def noOcc (p l : List Char) : Prop := ∀ i, matchLit p (l.drop i) = none

/-! ### Shared helper lemmas -/

theorem list_take_all {α : Type} : ∀ (n : Nat) (l : List α), l.length ≤ n → l.take n = l
  | _, [], _ => by simp
  | 0, a :: as, h => by simp at h
  | n + 1, a :: as, h => by
    simp only [List.take_succ_cons, List.cons.injEq, true_and]
    exact list_take_all n as (by simpa using h)

theorem str_data_append (a b : String) : (a ++ b).data = a.data ++ b.data := rfl

theorem str_empty_iff (s : String) : s = "" ↔ s.data = [] := by
  constructor
  · intro h; rw [h]
  · intro h
    cases s with
    | mk d => simp only [String.data] at h; rw [h]

theorem dropWhile_len_le (q : Char → Bool) (l : List Char) :
    (l.dropWhile q).length ≤ l.length := by
  induction l with
  | nil => simp [List.dropWhile]
  | cons x xs ih =>
    by_cases hx : q x
    · simp only [List.dropWhile, hx, List.length_cons]
      omega
    · simp [List.dropWhile, hx]

/-! ### Claim C3 (line-range resolver) -/

/-- C3 counterexample: on a first descriptor with start 10 and line
count 0 the code returns `(10, 10)` — the `max(lines - 1, 0)` clamp
makes `end = start` — not the claimed degenerate pair `(10, 9)`. -/
theorem line_range_counterexample :
    extract_line_numbers (patchPayload [{ newStart := some 10, newLines := some 0 }]) =
      (some 10, some 10) ∧
    extract_line_numbers (patchPayload [{ newStart := some 10, newLines := some 0 }]) ≠
      (some 10, some 9) := by
  exact ⟨rfl, by decide⟩

/-- C3 amended: `extract_line_numbers` maps an empty structured-patch
list to `(null, null)`; a first descriptor with start 10, line count 5
to `(10, 14)`; and start 10, line count 0 to `(10, 10)` (the clamp
`max(lineCount - 1, 0)` makes a zero-length insertion end at its start,
never before it). -/
theorem line_range_amended :
    extract_line_numbers (patchPayload []) = (none, none) ∧
    extract_line_numbers (patchPayload [{ newStart := some 10, newLines := some 5 }]) =
      (some 10, some 14) ∧
    extract_line_numbers (patchPayload [{ newStart := some 10, newLines := some 0 }]) =
      (some 10, some 10) := by
  refine ⟨rfl, by decide, by decide⟩

/-! ### Claim C10 (Edit-branch vs MultiEdit-branch line ranges) -/

/-- C10: on the first structured-patch descriptor the MultiEdit branch's
inline range computation (`newLines` defaulting to 1) agrees with the
Edit branch's `extract_line_numbers` (`newLines` defaulting to 0): with
start `s` and count `n` both give `(s, s + max (n-1) 0)`, and with the
count absent both give `(s, s)`. -/
theorem range_equiv_spec (p : Patch) (rest : List Patch) (d : Payload)
    (hd : d.tool_response.structuredPatch = p :: rest) :
    extract_line_numbers d = multiRangeAt (p :: rest) 0 ∧
    (∀ s n, p.newStart = some s → p.newLines = some n →
      multiRangeAt (p :: rest) 0 = (some s, some (s + max (n - 1) 0)) ∧
      extract_line_numbers d = (some s, some (s + max (n - 1) 0))) ∧
    (∀ s, p.newStart = some s → p.newLines = none →
      multiRangeAt (p :: rest) 0 = (some s, some s) ∧
      extract_line_numbers d = (some s, some s)) := by
  have hm : multiRangeAt (p :: rest) 0 =
      (match p.newStart with
       | some start => (some start, some (start + max (p.newLines.getD 1 - 1) 0))
       | none => ((none : Option Nat), (none : Option Nat))) := by
    simp [multiRangeAt]
  have he : extract_line_numbers d =
      (match p.newStart with
       | some start => (some start, some (start + max (p.newLines.getD 0 - 1) 0))
       | none => ((none : Option Nat), (none : Option Nat))) := by
    rw [extract_line_numbers, hd]
  refine ⟨?_, ?_, ?_⟩
  · rw [hm, he]
    cases hs : p.newStart with
    | none => rfl
    | some s =>
      cases hn : p.newLines with
      | none => simp
      | some n => simp
  · intro s n hs hn
    rw [hm, he, hs, hn]
    exact ⟨rfl, rfl⟩
  · intro s hs hn
    rw [hm, he, hs, hn]
    constructor
    · simp
    · simp

/-- C10 witness: on the concrete descriptor `(start 7, count absent)`
both computations give `(7, 7)`. -/
theorem range_equiv_spec_witness :
    multiRangeAt [{ newStart := some 7 }] 0 = (some 7, some 7) ∧
    extract_line_numbers (patchPayload [{ newStart := some 7 }]) = (some 7, some 7) :=
  (range_equiv_spec { newStart := some 7 } [] (patchPayload [{ newStart := some 7 }])
    rfl).2.2 7 rfl rfl

/-! ### Claim C2 (EditExtractor record counts, unknown tools) -/

theorem relativize_empty (pd : String) (hpd : pd ≠ "") :
    relativize_path "" pd = "" := by
  rw [relativize_path, if_neg (fun h => hpd h.symm)]
  cases hc : pd.data ++ ['/'] with
  | nil => simp at hc
  | cons a as => rfl

/-- C2 counterexample: a MultiEdit invocation whose payload carries no
sub-edit list produces zero edit records, refuting "every
tool-invocation event produces at least one edit record". -/
theorem extract_edits_counterexample :
    extract_edits multiEmptyPayload "/proj" = [] := by decide

/-- C2 amended: every tool-invocation event whose kind is not MultiEdit
produces exactly one edit record; a MultiEdit produces one record per
sub-edit (so zero when its sub-edit list is empty); and an event naming
an unrecognized tool kind produces exactly one record with null line
range, empty fingerprint, summary `unknown tool: <name>`, and — when no
file path is supplied — a file field embedding the tool name.
(`project_dir` is assumed nonempty and distinct from `"."`, the
degenerate roots where the simplified path model diverges from
`pathlib`.) -/
theorem extract_edits_amended (data : Payload) (pd : String)
    (hpd : pd ≠ "") (hpd2 : pd ≠ ".") :
    (data.tool_name ≠ "MultiEdit" → (extract_edits data pd).length = 1) ∧
    (data.tool_name = "MultiEdit" →
      (extract_edits data pd).length =
        (pyOrL data.tool_input.edits data.tool_input.changes).length) ∧
    (data.tool_name ∉ (["Edit", "Write", "MultiEdit"] : List String) →
      data.tool_input.file_path = "" → data.tool_input.path = "" →
      extract_edits data pd =
        [{ file := "unknown:" ++ data.tool_name,
           line_start := none,
           line_end := none,
           content_hash := "",
           change := "unknown tool: " ++ data.tool_name }]) := by
  refine ⟨?_, ?_, ?_⟩
  · intro hne
    rw [extract_edits]
    by_cases h1 : data.tool_name = "Edit"
    · simp [h1]
    · rw [if_neg h1]
      by_cases h2 : data.tool_name = "Write"
      · rw [if_pos h2]
        by_cases h3 : pyOrS data.tool_input.content data.tool_input.file_text = ""
        · rw [if_pos h3]; rfl
        · rw [if_neg h3]; rfl
      · rw [if_neg h2, if_neg hne]; rfl
  · intro hme
    rw [extract_edits, if_neg (by rw [hme]; decide), if_neg (by rw [hme]; decide),
      if_pos hme]
    simp [List.length_map, List.enum_length]
  · intro hunk hf1 hf2
    have h1 : data.tool_name ≠ "Edit" := by intro h; exact hunk (by rw [h]; decide)
    have h2 : data.tool_name ≠ "Write" := by intro h; exact hunk (by rw [h]; decide)
    have h3 : data.tool_name ≠ "MultiEdit" := by intro h; exact hunk (by rw [h]; decide)
    rw [extract_edits, if_neg h1, if_neg h2, if_neg h3]
    rw [hf1, hf2]
    have hrel : relativize_path (pyOrS "" "") pd = "" := by
      rw [show pyOrS "" "" = "" from rfl]
      exact relativize_empty pd hpd
    rw [hrel]
    rfl

/-- C2 witness: a `Grep` invocation with no file path, under project
root `/proj`, yields exactly the placeholder record. -/
theorem extract_edits_amended_witness :
    (unknownPayload.tool_name ≠ "MultiEdit" →
      (extract_edits unknownPayload "/proj").length = 1) ∧
    (unknownPayload.tool_name ∉ (["Edit", "Write", "MultiEdit"] : List String) →
      unknownPayload.tool_input.file_path = "" → unknownPayload.tool_input.path = "" →
      extract_edits unknownPayload "/proj" =
        [{ file := "unknown:" ++ unknownPayload.tool_name,
           line_start := none,
           line_end := none,
           content_hash := "",
           change := "unknown tool: " ++ unknownPayload.tool_name }]) := by
  have h := extract_edits_amended unknownPayload "/proj" (by decide) (by decide)
  exact ⟨h.1, h.2.2⟩

/-! ### Claim C8 (Write extraction) -/

/-- C8: a Write invocation produces exactly one record; `line_start` is
1; `line_end` is the newline count of the content plus one (null when
the content is empty); the fingerprint is over at most the first 500
characters of the content; and the summary is `created file (<n>
lines)`, or `created file` when the line count is unknown. -/
theorem write_record_spec (data : Payload) (pd : String)
    (h : data.tool_name = "Write") :
    (extract_edits data pd).length = 1 ∧
    (∀ r ∈ extract_edits data pd,
      r.line_start = some 1 ∧
      r.line_end =
        (if pyOrS data.tool_input.content data.tool_input.file_text = "" then none
         else some ((pyOrS data.tool_input.content data.tool_input.file_text).data.count '\n' + 1)) ∧
      r.content_hash =
        content_hash (String.mk
          ((pyOrS data.tool_input.content data.tool_input.file_text).data.take 500)) ∧
      r.change =
        (if pyOrS data.tool_input.content data.tool_input.file_text = "" then "created file"
         else "created file (" ++
           toString ((pyOrS data.tool_input.content data.tool_input.file_text).data.count '\n' + 1) ++
           " lines)")) := by
  have hw : data.tool_name ≠ "Edit" := by rw [h]; decide
  rw [extract_edits, if_neg hw, if_pos h]
  by_cases hc : pyOrS data.tool_input.content data.tool_input.file_text = ""
  · rw [if_pos hc]
    refine ⟨rfl, ?_⟩
    intro r hr
    simp only [List.mem_singleton] at hr
    subst hr
    rw [if_pos hc, if_pos hc]
    exact ⟨rfl, rfl, rfl, rfl⟩
  · rw [if_neg hc]
    refine ⟨rfl, ?_⟩
    intro r hr
    simp only [List.mem_singleton] at hr
    subst hr
    rw [if_neg hc, if_neg hc]
    exact ⟨rfl, rfl, rfl, rfl⟩

/-- C8 witness: the concrete Write of a 3-newline content produces one
record with `line_start = 1` and `line_end = 4`. -/
theorem write_record_spec_witness :
    (extract_edits writePayload "/proj").length = 1 ∧
    ∀ r ∈ extract_edits writePayload "/proj",
      r.line_start = some 1 ∧ r.line_end = some 4 := by
  have h := write_record_spec writePayload "/proj" rfl
  refine ⟨h.1, ?_⟩
  intro r hr
  have h2 := h.2 r hr
  refine ⟨h2.1, ?_⟩
  have h3 := h2.2.1
  rw [h3]
  decide

/-! ### Claims C7, C5, C1 (hook entry point) -/

/-- C7: the tool-event entry point leaves the handoff slot untouched
(the pending instruction is read, never rewritten or deleted), and its
only effect on any session log is appending: the previous contents of
every log file remain an unchanged prefix of its new contents. -/
theorem hook_frame_spec (data : Payload) (ps : Option PromptState)
    (now ts rand pd : String) (logs : String → List Record) :
    (hookMain data ps now ts rand pd logs).1 = ps ∧
    ∀ name, ∃ tail,
      (hookMain data ps now ts rand pd logs).2 name = logs name ++ tail := by
  refine ⟨rfl, ?_⟩
  intro name
  by_cases h : name = hookTarget ps ts rand
  · exact ⟨hookRecords data ps now pd, by rw [hookMain]; simp [h]⟩
  · exact ⟨[], by rw [hookMain]; simp [h]⟩

/-- C5: when the handoff slot is absent/unreadable/corrupt (`none`) or
names no session file (empty name), the tool event is still processed:
its records are appended to the freshly synthesized orphan session file
(whose name carries the `-orphan.jsonl` tag), and no other session file
— in particular no pre-existing file of a prior instruction — is
touched. -/
theorem orphan_fallback_spec (data : Payload) (ps : Option PromptState)
    (now ts rand pd : String) (logs : String → List Record)
    (h : ps = none ∨ ∃ st, ps = some st ∧ st.session_file = "") :
    (hookMain data ps now ts rand pd logs).2 (orphan_filename ts rand) =
      logs (orphan_filename ts rand) ++ hookRecords data ps now pd ∧
    (∀ name, name ≠ orphan_filename ts rand →
      (hookMain data ps now ts rand pd logs).2 name = logs name) ∧
    (∃ stem, (orphan_filename ts rand).data = stem ++ "-orphan.jsonl".data) := by
  have htarget : hookTarget ps ts rand = orphan_filename ts rand := by
    rcases h with h | ⟨st, hst, hsf⟩
    · rw [h, hookTarget]
    · rw [hst, hookTarget, if_pos hsf]
  refine ⟨?_, ?_, ?_⟩
  · rw [hookMain]
    simp [htarget]
  · intro name hne
    rw [hookMain]
    simp only []
    rw [if_neg (by rw [htarget]; exact hne)]
  · refine ⟨(ts ++ "-" ++ rand).data, ?_⟩
    rw [orphan_filename]
    exact str_data_append (ts ++ "-" ++ rand) "-orphan.jsonl"

/-- C5 witness: with an absent slot, a concrete Edit event appends its
records to the orphan file and leaves a distinct pre-existing session
file unchanged. -/
theorem orphan_fallback_spec_witness :
    (hookMain editPayload none "T0" "ts" "r4nd0m" "/proj" emptyLogs).2
        (orphan_filename "ts" "r4nd0m") =
      emptyLogs (orphan_filename "ts" "r4nd0m") ++
        hookRecords editPayload none "T0" "/proj" ∧
    (∀ name, name ≠ orphan_filename "ts" "r4nd0m" →
      (hookMain editPayload none "T0" "ts" "r4nd0m" "/proj" emptyLogs).2 name =
        emptyLogs name) ∧
    (∃ stem, (orphan_filename "ts" "r4nd0m").data = stem ++ "-orphan.jsonl".data) :=
  orphan_fallback_spec editPayload none "T0" "ts" "r4nd0m" "/proj" emptyLogs (Or.inl rfl)

theorem session_filename_ne_empty (ts rand : String) :
    session_filename_of ts rand ≠ "" := by
  intro h
  have hd := (str_empty_iff (session_filename_of ts rand)).1 h
  rw [session_filename_of] at hd
  rw [str_data_append (ts ++ "-" ++ rand) ".jsonl"] at hd
  simp at hd

/-- The Edit branch of `extract_edits` always yields exactly one record,
whose fields are as on src/hook.py lines 162-173. -/
theorem extract_edits_of_edit (data : Payload) (pd : String)
    (h : data.tool_name = "Edit") :
    extract_edits data pd =
      [{ file := relativize_path (pyOrS data.tool_input.file_path data.tool_input.path) pd,
         line_start := (extract_line_numbers data).1,
         line_end := (extract_line_numbers data).2,
         content_hash := content_hash data.tool_input.new_string,
         change := compact_change_summary data.tool_input.old_string
           data.tool_input.new_string }] := by
  rw [extract_edits, if_pos h]

/-- C1: if the handoff slot holds the pending instruction produced by
capturing a prompt (session file `S := (captureMain ...).session_file`,
sanitized text `p`), then processing a subsequent Edit tool event
appends exactly one record to that session file `S`, and that record's
prompt field is `p = clean_prompt` of the captured raw prompt. -/
theorem end_to_end_edit_append (cp : PromptPayload) (cts cnow crand cauthor : String)
    (data : Payload) (now ts rand pd : String) (logs : String → List Record)
    (h : data.tool_name = "Edit") :
    ∃ r : Record,
      (hookMain data (some (captureMain cp cts cnow crand cauthor)) now ts rand pd
          logs).2 (captureMain cp cts cnow crand cauthor).session_file =
        logs (captureMain cp cts cnow crand cauthor).session_file ++ [r] ∧
      r.prompt = (captureMain cp cts cnow crand cauthor).prompt ∧
      (captureMain cp cts cnow crand cauthor).prompt = clean_prompt cp.prompt := by
  set st := captureMain cp cts cnow crand cauthor with hst
  have hsf : st.session_file = session_filename_of cts crand := rfl
  have htarget : hookTarget (some st) ts rand = st.session_file := by
    rw [hookTarget, if_neg (by rw [hsf]; exact session_filename_ne_empty cts crand)]
  have hrecs : hookRecords data (some st) now pd =
      (extract_edits data pd).map fun e =>
        { ts := now,
          file := e.file,
          lines := (e.line_start, e.line_end),
          content_hash := e.content_hash,
          prompt := st.prompt,
          reason := "",
          change := e.change,
          tool := data.tool_name,
          author := st.author,
          session := pyOrS data.session_id st.session_id,
          trace := hookTrace data (some st) } := by
    rw [hookRecords]
  rw [extract_edits_of_edit data pd h] at hrecs
  refine ⟨{ ts := now,
            file := relativize_path (pyOrS data.tool_input.file_path data.tool_input.path) pd,
            lines := ((extract_line_numbers data).1, (extract_line_numbers data).2),
            content_hash := content_hash data.tool_input.new_string,
            prompt := st.prompt,
            reason := "",
            change := compact_change_summary data.tool_input.old_string
              data.tool_input.new_string,
            tool := data.tool_name,
            author := st.author,
            session := pyOrS data.session_id st.session_id,
            trace := hookTrace data (some st) }, ?_, rfl, rfl⟩
  rw [hookMain]
  simp only []
  rw [if_pos htarget.symm, hrecs]
  rfl

/-- C1 witness: capturing "fix bug" and then processing a concrete Edit
appends exactly one record, to the captured session file, carrying the
sanitized prompt. -/
theorem end_to_end_edit_append_witness :
    ∃ r : Record,
      (hookMain editPayload (some (captureMain fixBugPrompt "TS" "NOW" "abc123" "alice"))
          "T1" "ts2" "r2" "/proj" emptyLogs).2
          (captureMain fixBugPrompt "TS" "NOW" "abc123" "alice").session_file =
        emptyLogs (captureMain fixBugPrompt "TS" "NOW" "abc123" "alice").session_file ++
          [r] ∧
      r.prompt = (captureMain fixBugPrompt "TS" "NOW" "abc123" "alice").prompt ∧
      (captureMain fixBugPrompt "TS" "NOW" "abc123" "alice").prompt =
        clean_prompt fixBugPrompt.prompt :=
  end_to_end_edit_append fixBugPrompt "TS" "NOW" "abc123" "alice" editPayload
    "T1" "ts2" "r2" "/proj" emptyLogs rfl

/-! ### Claim C6 (DiffSummarizer) -/

/-- C6: with the default bound `L = 200`, `compact_change_summary`
returns `added:`/`removed:` plus the flattened side when the other side
is empty (untruncated when within the bound); otherwise it joins the
two flattened sides with an arrow, skipping to `prefixLen - 10` with an
ellipsis marker on both sides when the position-wise common prefix
exceeds 20; sides whose flattened form is shorter than the bound are
never truncated. -/
theorem change_summary_spec (old_str new_str : String) :
    (old_str = "" → new_str ≠ "" → new_str.data.length ≤ 200 →
      compact_change_summary old_str new_str =
        String.mk ("added: ".data ++ new_str.data.map subNl)) ∧
    (old_str ≠ "" → new_str = "" → old_str.data.length ≤ 200 →
      compact_change_summary old_str new_str =
        String.mk ("removed: ".data ++ old_str.data.map subNl)) ∧
    (old_str ≠ "" → new_str ≠ "" →
      (flattenLine old_str.data).length < 200 →
      (flattenLine new_str.data).length < 200 →
      (20 < commonLen (flattenLine old_str.data) (flattenLine new_str.data) →
        compact_change_summary old_str new_str =
          String.mk ('…' :: (flattenLine old_str.data).drop
              (commonLen (flattenLine old_str.data) (flattenLine new_str.data) - 10) ++
            " → ".data ++
            '…' :: (flattenLine new_str.data).drop
              (commonLen (flattenLine old_str.data) (flattenLine new_str.data) - 10))) ∧
      (commonLen (flattenLine old_str.data) (flattenLine new_str.data) ≤ 20 →
        compact_change_summary old_str new_str =
          String.mk (flattenLine old_str.data ++ " → ".data ++
            flattenLine new_str.data))) := by
  refine ⟨?_, ?_, ?_⟩
  · intro h1 h2 h3
    rw [compact_change_summary, if_pos ⟨h1, h2⟩, list_take_all 200 new_str.data h3]
  · intro h1 h2 h3
    rw [compact_change_summary, if_neg (fun hq => h1 hq.1), if_pos ⟨h1, h2⟩,
      list_take_all 200 old_str.data h3]
  · intro h1 h2 hlo hln
    rw [compact_change_summary, if_neg (fun hq => h1 hq.1), if_neg (fun hq => h2 hq.2)]
    dsimp only
    constructor
    · intro hc
      rw [if_pos hc, Nat.max_zero]
      have hl1 : ¬ 200 < ('…' :: (flattenLine old_str.data).drop
          (commonLen (flattenLine old_str.data) (flattenLine new_str.data) - 10)).length := by
        simp only [List.length_cons, List.length_drop]
        omega
      have hl2 : ¬ 200 < ('…' :: (flattenLine new_str.data).drop
          (commonLen (flattenLine old_str.data) (flattenLine new_str.data) - 10)).length := by
        simp only [List.length_cons, List.length_drop]
        omega
      rw [if_neg hl1, if_neg hl2]
    · intro hc
      rw [if_neg (by omega :
          ¬ 20 < commonLen (flattenLine old_str.data) (flattenLine new_str.data))]
      rw [if_neg (by omega : ¬ 200 < (flattenLine old_str.data).length),
        if_neg (by omega : ¬ 200 < (flattenLine new_str.data).length)]

/-- C6 witness: the spec's three scenarios at concrete inputs, the third
with a 27-character common prefix. -/
theorem change_summary_spec_witness :
    compact_change_summary "" "hello" = "added: hello" ∧
    compact_change_summary "hello" "" = "removed: hello" ∧
    compact_change_summary "abcdefghijklmnopqrstuvwxyz_OLD"
        "abcdefghijklmnopqrstuvwxyz_NEW" =
      String.mk ('…' :: (flattenLine "abcdefghijklmnopqrstuvwxyz_OLD".data).drop
          (commonLen (flattenLine "abcdefghijklmnopqrstuvwxyz_OLD".data)
            (flattenLine "abcdefghijklmnopqrstuvwxyz_NEW".data) - 10) ++
        " → ".data ++
        '…' :: (flattenLine "abcdefghijklmnopqrstuvwxyz_NEW".data).drop
          (commonLen (flattenLine "abcdefghijklmnopqrstuvwxyz_OLD".data)
            (flattenLine "abcdefghijklmnopqrstuvwxyz_NEW".data) - 10)) := by
  refine ⟨?_, ?_, ?_⟩
  · rw [(change_summary_spec "" "hello").1 rfl (by decide) (by decide)]
    decide
  · rw [(change_summary_spec "hello" "").2.1 (by decide) rfl (by decide)]
    decide
  · exact ((change_summary_spec "abcdefghijklmnopqrstuvwxyz_OLD"
      "abcdefghijklmnopqrstuvwxyz_NEW").2.2 (by decide) (by decide) (by decide)
      (by decide)).1 (by decide)

/-! ### Claim C4 (ContentFingerprinter) -/

/-- Splitting on whitespace is invariant under collapsing whitespace
runs: the accumulator is empty whenever the previous character was
whitespace. -/
theorem splitWsAux_collapse :
    ∀ (cs : List Char) (b : Bool) (acc : List Char), (b = true → acc = []) →
      splitWsAux (collapseWsAux b cs) acc = splitWsAux cs acc := by
  intro cs
  induction cs with
  | nil => intro b acc hb; rfl
  | cons c cs ih =>
    intro b acc hb
    by_cases hc : isPySpace c
    · cases b with
      | true =>
        rw [hb rfl]
        have h1 : collapseWsAux true (c :: cs) = collapseWsAux true cs := by
          rw [collapseWsAux]; simp [hc]
        have h2 : splitWsAux (c :: cs) ([] : List Char) = splitWsAux cs [] := by
          rw [splitWsAux]; simp [hc]
        rw [h1, h2, ih true [] (fun _ => rfl)]
      | false =>
        have h1 : collapseWsAux false (c :: cs) = ' ' :: collapseWsAux true cs := by
          rw [collapseWsAux]; simp [hc]
        have hsp : isPySpace ' ' = true := by decide
        have h2 : splitWsAux (' ' :: collapseWsAux true cs) acc =
            if acc.isEmpty then splitWsAux (collapseWsAux true cs) []
            else acc.reverse :: splitWsAux (collapseWsAux true cs) [] := by
          rw [splitWsAux]; simp [hsp]
        have h3 : splitWsAux (c :: cs) acc =
            if acc.isEmpty then splitWsAux cs [] else acc.reverse :: splitWsAux cs [] := by
          rw [splitWsAux]; simp [hc]
        rw [h1, h2, h3, ih true [] (fun _ => rfl)]
    · have h1 : collapseWsAux b (c :: cs) = c :: collapseWsAux false cs := by
        rw [collapseWsAux]; simp [hc]
      have h2 : splitWsAux (c :: collapseWsAux false cs) acc =
          splitWsAux (collapseWsAux false cs) (c :: acc) := by
        rw [splitWsAux]; simp [hc]
      have h3 : splitWsAux (c :: cs) acc = splitWsAux cs (c :: acc) := by
        rw [splitWsAux]; simp [hc]
      rw [h1, h2, h3, ih false (c :: acc) (by simp)]

/-- Collapsing never maps a nonempty text to the empty one. -/
theorem collapseWs_nil_iff (l : List Char) : collapseWs l = [] ↔ l = [] := by
  constructor
  · intro h
    cases l with
    | nil => rfl
    | cons c cs =>
      rw [collapseWs, collapseWsAux] at h
      by_cases hc : isPySpace c
      · simp [hc] at h
      · simp [hc] at h
  · intro h; rw [h]; rfl

theorem toHex32_length (x : Nat) : (toHex32 x).length = 8 := rfl

theorem sha256hex_length (m : List Nat) : (sha256hex m).length = 64 := by
  rw [sha256hex]
  simp [List.length_append, toHex32_length]

/-- C4: texts equal after collapsing all whitespace runs to single
spaces have equal fingerprints; the empty text fingerprints to the
empty string; and every nonempty text's fingerprint has the constant
length 16 (hex characters of the truncated digest). -/
theorem content_hash_spec (t1 t2 t : String)
    (hc : collapseWs t1.data = collapseWs t2.data) (ht : t ≠ "") :
    content_hash t1 = content_hash t2 ∧
    content_hash "" = "" ∧
    (content_hash t).length = 16 := by
  refine ⟨?_, rfl, ?_⟩
  · have hsplit : splitWs t1.data = splitWs t2.data := by
      have h1 : splitWs (collapseWs t1.data) = splitWs t1.data :=
        splitWsAux_collapse t1.data false [] (by simp)
      have h2 : splitWs (collapseWs t2.data) = splitWs t2.data :=
        splitWsAux_collapse t2.data false [] (by simp)
      rw [← h1, ← h2, hc]
    by_cases h1 : t1 = ""
    · have h2 : t2 = "" := by
        rw [str_empty_iff]
        rw [← collapseWs_nil_iff]
        rw [← hc]
        rw [collapseWs_nil_iff]
        exact (str_empty_iff t1).1 h1
      rw [h1, h2]
    · have h2 : ¬ t2 = "" := by
        intro h2
        apply h1
        rw [str_empty_iff]
        rw [← collapseWs_nil_iff, hc, collapseWs_nil_iff]
        exact (str_empty_iff t2).1 h2
      rw [content_hash, if_neg h1, content_hash, if_neg h2]
      rw [pyNormalize, pyNormalize, hsplit]
  · rw [content_hash, if_neg ht]
    show ((sha256hex (utf8Bytes (pyNormalize t))).take 16).length = 16
    rw [List.length_take, sha256hex_length]
    decide

/-- C4 witness: `"a  b\nc"` and `"a b c"` collapse identically and hence
fingerprint identically; `"x"` is nonempty and its fingerprint has
length 16. -/
theorem content_hash_spec_witness :
    collapseWs "a  b\nc".data = collapseWs "a b c".data ∧
    content_hash "a  b\nc" = content_hash "a b c" ∧
    content_hash "" = "" ∧
    (content_hash "x").length = 16 := by
  have h := content_hash_spec "a  b\nc" "a b c" "x" (by decide) (by decide)
  exact ⟨by decide, h.1, h.2.1, h.2.2⟩

/-! ### Claim C9: matcher and occurrence lemmas -/

theorem matchLit_self (p r : List Char) : matchLit p (p ++ r) = some r := by
  induction p with
  | nil => rfl
  | cons c cs ih => rw [List.cons_append, matchLit]; simp [ih]

theorem matchLit_eq_append (p l r : List Char) (h : matchLit p l = some r) :
    l = p ++ r := by
  induction p generalizing l with
  | nil =>
    simp only [matchLit, Option.some.injEq] at h
    rw [h, List.nil_append]
  | cons c cs ih =>
    cases l with
    | nil => simp [matchLit] at h
    | cons x xs =>
      rw [matchLit] at h
      by_cases hx : x = c
      · rw [if_pos hx] at h
        rw [hx, List.cons_append, ih xs h]
      · rw [if_neg hx] at h; cases h

theorem matchLit_extend (p u w r : List Char) (h : matchLit p u = some r) :
    matchLit p (u ++ w) = some (r ++ w) := by
  rw [matchLit_eq_append p u r h, List.append_assoc]
  exact matchLit_self p (r ++ w)

theorem matchLit_split (p q l r : List Char) (h : matchLit (p ++ q) l = some r) :
    matchLit p l = some (q ++ r) ∧ matchLit q (q ++ r) = some r := by
  have hl := matchLit_eq_append _ _ _ h
  rw [List.append_assoc] at hl
  exact ⟨by rw [hl]; exact matchLit_self p (q ++ r), matchLit_self q r⟩

theorem matchLit_head_ne (a : Char) (ps : List Char) (c : Char) (cs : List Char)
    (h : c ≠ a) : matchLit (a :: ps) (c :: cs) = none := by
  rw [matchLit, if_neg h]

theorem noOcc_nil (a : Char) (ps : List Char) : noOcc (a :: ps) [] := by
  intro i
  rw [List.drop_nil]
  rfl

theorem noOcc_cons (p : List Char) (c : Char) (cs : List Char) :
    noOcc p (c :: cs) ↔ matchLit p (c :: cs) = none ∧ noOcc p cs := by
  constructor
  · intro h
    exact ⟨h 0, fun i => h (i + 1)⟩
  · rintro ⟨h0, h⟩ i
    cases i with
    | zero => exact h0
    | succ j => exact h j

theorem noOcc_all_ne (a : Char) (ps l : List Char) (hl : ∀ c ∈ l, c ≠ a) :
    noOcc (a :: ps) l := by
  induction l with
  | nil => exact noOcc_nil a ps
  | cons x xs ih =>
    rw [noOcc_cons]
    exact ⟨matchLit_head_ne a ps x xs (hl x (List.mem_cons_self x xs)),
      ih fun c hc => hl c (List.mem_cons_of_mem x hc)⟩

theorem noOcc_append_ne (a : Char) (ps u v : List Char) (hu : ∀ c ∈ u, c ≠ a)
    (hv : noOcc (a :: ps) v) : noOcc (a :: ps) (u ++ v) := by
  induction u with
  | nil => simpa using hv
  | cons x xs ih =>
    rw [List.cons_append, noOcc_cons]
    exact ⟨matchLit_head_ne a ps x (xs ++ v) (hu x (List.mem_cons_self x xs)),
      ih fun c hc => hu c (List.mem_cons_of_mem x hc)⟩

theorem matchLit_of_take (p : List Char) (k : Nat) (l r : List Char)
    (h : matchLit p (l.take k) = some r) : matchLit p l = some (r ++ l.drop k) := by
  have hl := matchLit_eq_append _ _ _ h
  have hdec : l = p ++ (r ++ l.drop k) := by
    conv_lhs => rw [← List.take_append_drop k l]
    rw [hl, List.append_assoc]
  conv_lhs => rw [hdec]
  exact matchLit_self _ _

theorem noOcc_take (p l : List Char) (k : Nat) (h : noOcc p l) : noOcc p (l.take k) := by
  intro i
  cases hm : matchLit p ((l.take k).drop i) with
  | none => rfl
  | some r =>
    exfalso
    rw [List.drop_take] at hm
    have hfull := matchLit_of_take p (k - i) (l.drop i) r hm
    rw [h i] at hfull
    cases hfull

theorem noOcc_dropWhile (p l : List Char) (q : Char → Bool) (h : noOcc p l) :
    noOcc p (l.dropWhile q) := by
  induction l with
  | nil => simpa using h
  | cons x xs ih =>
    rw [List.dropWhile_cons]
    by_cases hx : q x
    · simp only [hx, if_true]
      exact ih (((noOcc_cons p x xs).1 h).2)
    · simp only [hx, if_false]
      exact h

theorem trimRight_decomp (l : List Char) :
    trimRightWs l ++ (l.reverse.takeWhile isPySpace).reverse = l := by
  rw [trimRightWs, ← List.reverse_append, List.takeWhile_append_dropWhile,
    List.reverse_reverse]

theorem noOcc_trimRight (a : Char) (ps l : List Char) (h : noOcc (a :: ps) l) :
    noOcc (a :: ps) (trimRightWs l) := by
  intro i
  cases hm : matchLit (a :: ps) ((trimRightWs l).drop i) with
  | none => rfl
  | some r =>
    exfalso
    by_cases hi : i ≤ (trimRightWs l).length
    · have hdrop : l.drop i =
          (trimRightWs l).drop i ++ (l.reverse.takeWhile isPySpace).reverse := by
        conv_lhs => rw [← trimRight_decomp l]
        exact List.drop_append_of_le_length hi
      have hext := matchLit_extend _ _ ((l.reverse.takeWhile isPySpace).reverse) _ hm
      rw [← hdrop] at hext
      rw [h i] at hext
      cases hext
    · have hnil : (trimRightWs l).drop i = [] := List.drop_eq_nil_of_le (by omega)
      rw [hnil] at hm
      cases hm

theorem noOcc_pyStrip (a : Char) (ps l : List Char) (h : noOcc (a :: ps) l) :
    noOcc (a :: ps) (pyStrip l) :=
  noOcc_trimRight a ps _ (noOcc_dropWhile _ l isPySpace h)

/-! ### Claim C9: the sanitizer is the identity on clean text -/

theorem sub_spans1_nil : sub_spans1 [] = [] := by rw [sub_spans1]

theorem sub_spans2_nil : sub_spans2 [] = [] := by rw [sub_spans2]

theorem sub_spans1_none (c : Char) (cs : List Char) (h : span1At (c :: cs) = none) :
    sub_spans1 (c :: cs) = c :: sub_spans1 cs := by
  rw [sub_spans1]
  split
  · rename_i rest heq
    rw [h] at heq
    cases heq
  · rfl

theorem sub_spans1_some (c : Char) (cs rest : List Char)
    (h : span1At (c :: cs) = some rest) :
    sub_spans1 (c :: cs) = sub_spans1 rest := by
  rw [sub_spans1]
  split
  · rename_i r2 heq
    rw [h] at heq
    injection heq with heq2
    rw [heq2]
  · rename_i heq
    rw [h] at heq
    cases heq

theorem sub_spans2_none (c : Char) (cs : List Char) (h : span2At (c :: cs) = none) :
    sub_spans2 (c :: cs) = c :: sub_spans2 cs := by
  rw [sub_spans2]
  split
  · rename_i rest heq
    rw [h] at heq
    cases heq
  · rfl

theorem sub_spans2_some (c : Char) (cs rest : List Char)
    (h : span2At (c :: cs) = some rest) :
    sub_spans2 (c :: cs) = sub_spans2 rest := by
  rw [sub_spans2]
  split
  · rename_i r2 heq
    rw [h] at heq
    injection heq with heq2
    rw [heq2]
  · rename_i heq
    rw [h] at heq
    cases heq

theorem span1At_none_of_open (l : List Char) (h : matchLit open1Tag l = none) :
    span1At l = none := by
  rw [span1At, h]
  rfl

theorem span2At_none_of_open (l : List Char) (h : matchLit openMark l = none) :
    span2At l = none := by
  rw [span2At, h]
  rfl

theorem open1_of_mark_none (u : List Char) (h : matchLit openMark u = none) :
    matchLit open1Tag u = none := by
  cases hm : matchLit open1Tag u with
  | none => rfl
  | some r =>
    exfalso
    have he : open1Tag = openMark ++ "opened_file>".data := by decide
    rw [he] at hm
    have hs := (matchLit_split _ _ _ _ hm).1
    rw [h] at hs
    cases hs

theorem sub_spans1_id (l : List Char) (h : ∀ i, matchLit open1Tag (l.drop i) = none) :
    sub_spans1 l = l := by
  induction l with
  | nil => exact sub_spans1_nil
  | cons c cs ih =>
    have h0 := h 0
    rw [List.drop_zero] at h0
    rw [sub_spans1_none c cs (span1At_none_of_open _ h0)]
    rw [ih fun i => h (i + 1)]

theorem sub_spans2_id (l : List Char) (h : ∀ i, matchLit openMark (l.drop i) = none) :
    sub_spans2 l = l := by
  induction l with
  | nil => exact sub_spans2_nil
  | cons c cs ih =>
    have h0 := h 0
    rw [List.drop_zero] at h0
    rw [sub_spans2_none c cs (span2At_none_of_open _ h0)]
    rw [ih fun i => h (i + 1)]

theorem dropWhile_idem (q : Char → Bool) (l : List Char) :
    (l.dropWhile q).dropWhile q = l.dropWhile q := by
  induction l with
  | nil => rfl
  | cons x xs ih =>
    by_cases hx : q x
    · rw [List.dropWhile_cons, if_pos hx, ih]
    · rw [List.dropWhile_cons, if_neg hx, List.dropWhile_cons, if_neg hx]

theorem trimRight_idem (l : List Char) :
    trimRightWs (trimRightWs l) = trimRightWs l := by
  rw [trimRightWs, trimRightWs, List.reverse_reverse, dropWhile_idem]

theorem dropWhile_head_false (q : Char → Bool) (l : List Char) (c : Char) (cs : List Char)
    (h : l.dropWhile q = c :: cs) : q c = false := by
  induction l with
  | nil => simp at h
  | cons x xs ih =>
    rw [List.dropWhile_cons] at h
    by_cases hx : q x
    · rw [if_pos hx] at h
      exact ih h
    · rw [if_neg hx] at h
      injection h with h1 h2
      rw [← h1]
      simpa using hx

theorem pyStrip_idem (l : List Char) : pyStrip (pyStrip l) = pyStrip l := by
  rw [pyStrip, pyStrip]
  have hu : trimLeftWs (trimRightWs (trimLeftWs l)) = trimRightWs (trimLeftWs l) := by
    cases hc : trimRightWs (trimLeftWs l) with
    | nil => rfl
    | cons c cs =>
      have hdec := trimRight_decomp (trimLeftWs l)
      rw [hc] at hdec
      have hq : isPySpace c = false := by
        apply dropWhile_head_false isPySpace l c
          (cs ++ ((trimLeftWs l).reverse.takeWhile isPySpace).reverse)
        have hd2 := hdec.symm
        rw [List.cons_append] at hd2
        exact hd2
      rw [trimLeftWs, List.dropWhile_cons, hq]
      simp
  rw [hu, trimRight_idem]

theorem clean_of_noOcc (s : String) (h : noOcc openMark s.data) :
    clean_prompt s = String.mk (pyStrip s.data) := by
  rw [clean_prompt, sub_spans1_id s.data fun i => open1_of_mark_none _ (h i),
    sub_spans2_id s.data h]

theorem clean_idem_of_noOcc (t : String) (h : noOcc openMark t.data) :
    clean_prompt (clean_prompt t) = clean_prompt t := by
  have hmark : openMark = '<' :: "ide_".data := by decide
  have hstrip : noOcc openMark (pyStrip t.data) := by
    rw [hmark]
    rw [hmark] at h
    exact noOcc_pyStrip '<' "ide_".data t.data h
  rw [clean_of_noOcc t h]
  have h2 := clean_of_noOcc (String.mk (pyStrip t.data)) hstrip
  rw [h2]
  show String.mk (pyStrip (pyStrip t.data)) = String.mk (pyStrip t.data)
  rw [pyStrip_idem]

/-! ### Claim C9: a recognized tag pair wrapping a clean body is removed -/

theorem word_ne_gt (c : Char) (h : isWordChar c = true) : c ≠ '>' := by
  intro hh
  rw [hh] at h
  exact absurd h (by decide)

theorem word_ne_lt (c : Char) (h : isWordChar c = true) : c ≠ '<' := by
  intro hh
  rw [hh] at h
  exact absurd h (by decide)

theorem takeWhile_word (nm r : List Char) (hn : ∀ c ∈ nm, isWordChar c = true) :
    (nm ++ '>' :: r).takeWhile isWordChar = nm ∧
    (nm ++ '>' :: r).dropWhile isWordChar = '>' :: r := by
  induction nm with
  | nil =>
    rw [List.nil_append]
    constructor
    · rw [List.takeWhile_cons, if_neg (by decide)]
    · rw [List.dropWhile_cons, if_neg (by decide)]
  | cons x xs ih =>
    have hx := hn x (List.mem_cons_self x xs)
    have hrest := ih fun c hc => hn c (List.mem_cons_of_mem x hc)
    rw [List.cons_append]
    constructor
    · rw [List.takeWhile_cons, if_pos hx, hrest.1]
    · rw [List.dropWhile_cons, if_pos hx, hrest.2]

theorem wordRunThenGt_exact (nm r : List Char) (hne : nm ≠ [])
    (hn : ∀ c ∈ nm, isWordChar c = true) :
    wordRunThenGt (nm ++ '>' :: r) = some r := by
  obtain ⟨ht, hd⟩ := takeWhile_word nm r hn
  rw [wordRunThenGt, ht, hd]
  cases nm with
  | nil => exact absurd rfl hne
  | cons a as => rfl

theorem matchLit_wordgt (q : List Char) (hq : ∀ c ∈ q, isWordChar c = true) :
    ∀ (nm r s : List Char), (∀ c ∈ nm, isWordChar c = true) →
      matchLit (q ++ ['>']) (nm ++ '>' :: r) = some s → q = nm := by
  induction q with
  | nil =>
    intro nm r s hn h
    cases nm with
    | nil => rfl
    | cons a as =>
      exfalso
      rw [List.nil_append, List.cons_append] at h
      have ha := word_ne_gt a (hn a (List.mem_cons_self a as))
      rw [matchLit_head_ne _ _ _ _ ha] at h
      cases h
  | cons x xs ih =>
    intro nm r s hn h
    cases nm with
    | nil =>
      exfalso
      rw [List.cons_append, List.nil_append] at h
      have hx := word_ne_gt x (hq x (List.mem_cons_self x xs))
      rw [matchLit_head_ne _ _ _ _ (Ne.symm hx)] at h
      cases h
    | cons a as =>
      rw [List.cons_append, List.cons_append, matchLit] at h
      by_cases hax : a = x
      · rw [if_pos hax] at h
        have hrec := ih (fun c hc => hq c (List.mem_cons_of_mem x hc)) as r s
          (fun c hc => hn c (List.mem_cons_of_mem a hc)) h
        rw [hax, hrec]
      · rw [if_neg hax] at h
        cases h

theorem findCloseLit_skip (body l : List Char) (hb : ∀ c ∈ body, c ≠ '<') :
    findCloseLit close1Tag (body ++ l) = findCloseLit close1Tag l := by
  induction body with
  | nil => rfl
  | cons x xs ih =>
    rw [List.cons_append, findCloseLit]
    have hmm : matchLit close1Tag (x :: (xs ++ l)) = none := by
      rw [show close1Tag = '<' :: "/ide_opened_file>".data from rfl]
      exact matchLit_head_ne _ _ _ _ (hb x (List.mem_cons_self x xs))
    rw [hmm]
    exact ih fun c hc => hb c (List.mem_cons_of_mem x hc)

theorem findClose2_skip (body l : List Char) (hb : ∀ c ∈ body, c ≠ '<') :
    findClose2 (body ++ l) = findClose2 l := by
  induction body with
  | nil => rfl
  | cons x xs ih =>
    rw [List.cons_append, findClose2]
    have hmm : close2At (x :: (xs ++ l)) = none := by
      rw [close2At]
      have h2 : matchLit closeMark (x :: (xs ++ l)) = none := by
        rw [show closeMark = '<' :: "/ide_".data from rfl]
        exact matchLit_head_ne _ _ _ _ (hb x (List.mem_cons_self x xs))
      rw [h2]
      rfl
    rw [hmm]
    exact ih fun c hc => hb c (List.mem_cons_of_mem x hc)

theorem close2At_exact (nm : List Char) (hne : nm ≠ [])
    (hn : ∀ c ∈ nm, isWordChar c = true) :
    close2At (closeMark ++ (nm ++ ['>'])) = some [] := by
  rw [close2At, matchLit_self]
  show wordRunThenGt (nm ++ ['>']) = some []
  rw [show (['>'] : List Char) = '>' :: [] from rfl]
  exact wordRunThenGt_exact nm [] hne hn

theorem span2At_full (nm body : List Char) (hne : nm ≠ [])
    (hn : ∀ c ∈ nm, isWordChar c = true) (hb : ∀ c ∈ body, c ≠ '<') :
    span2At (openMark ++ (nm ++ '>' :: (body ++ ('<' :: ("/ide_".data ++
      (nm ++ ['>'])))))) = some [] := by
  rw [span2At, matchLit_self]
  show ((wordRunThenGt (nm ++ '>' :: (body ++ ('<' :: ("/ide_".data ++
      (nm ++ ['>'])))))).bind fun r2 =>
    (findClose2 r2).map fun r3 => r3.dropWhile isPySpace) = some []
  rw [wordRunThenGt_exact _ _ hne hn]
  show ((findClose2 (body ++ ('<' :: ("/ide_".data ++ (nm ++ ['>']))))).map
    fun r3 => r3.dropWhile isPySpace) = some []
  have hclose : findClose2 ('<' :: ("/ide_".data ++ (nm ++ ['>']))) = some [] := by
    rw [findClose2]
    have hc2 : close2At ('<' :: ("/ide_".data ++ (nm ++ ['>']))) = some [] := by
      have hshape : '<' :: ("/ide_".data ++ (nm ++ ['>'])) = closeMark ++ (nm ++ ['>']) := rfl
      rw [hshape]
      exact close2At_exact nm hne hn
    rw [hc2]
  rw [findClose2_skip body _ hb, hclose]
  rfl

theorem span1At_full (body : List Char) (hb : ∀ c ∈ body, c ≠ '<') :
    span1At (open1Tag ++ (body ++ close1Tag)) = some [] := by
  rw [span1At, matchLit_self]
  show ((findCloseLit close1Tag (body ++ close1Tag)).map
    fun r2 => r2.dropWhile isPySpace) = some []
  rw [findCloseLit_skip body close1Tag hb]
  rw [show findCloseLit close1Tag close1Tag = some ([] : List Char) from by decide]
  rfl

theorem mem_ide_ne_lt (c : Char) (h : c ∈ "ide_".data) : c ≠ '<' := by
  have hl : "ide_".data = ['i', 'd', 'e', '_'] := rfl
  rw [hl] at h
  simp only [List.mem_cons, List.mem_singleton] at h
  rcases h with rfl | rfl | rfl | rfl | h
  · decide
  · decide
  · decide
  · decide
  · cases h

theorem mem_slashide_ne_lt (c : Char) (h : c ∈ "/ide_".data) : c ≠ '<' := by
  have hl : "/ide_".data = ['/', 'i', 'd', 'e', '_'] := rfl
  rw [hl] at h
  simp only [List.mem_cons, List.mem_singleton] at h
  rcases h with rfl | rfl | rfl | rfl | rfl | h
  · decide
  · decide
  · decide
  · decide
  · decide
  · cases h

theorem noOcc_open1_wrapped (nm body : List Char) (hn : ∀ c ∈ nm, isWordChar c = true)
    (hb : ∀ c ∈ body, c ≠ '<') (hno : nm ≠ "opened_file".data) :
    noOcc open1Tag ('<' :: ("ide_".data ++ (nm ++ '>' :: (body ++
      ('<' :: ("/ide_".data ++ (nm ++ ['>']))))))) := by
  have hopw : ∀ c ∈ "opened_file".data, isWordChar c = true := by decide
  rw [noOcc_cons]
  constructor
  · cases hm : matchLit open1Tag ('<' :: ("ide_".data ++ (nm ++ '>' :: (body ++
        ('<' :: ("/ide_".data ++ (nm ++ ['>']))))))) with
    | none => rfl
    | some r =>
      exfalso
      have hdecomp : open1Tag = openMark ++ ("opened_file".data ++ ['>']) := by decide
      rw [hdecomp] at hm
      have hsplit := matchLit_split _ _ _ _ hm
      have hself : matchLit openMark ('<' :: ("ide_".data ++ (nm ++ '>' :: (body ++
          ('<' :: ("/ide_".data ++ (nm ++ ['>']))))))) =
          some (nm ++ '>' :: (body ++ ('<' :: ("/ide_".data ++ (nm ++ ['>']))))) :=
        matchLit_self openMark _
      rw [hself] at hsplit
      have heq : ("opened_file".data ++ ['>']) ++ r =
          nm ++ '>' :: (body ++ ('<' :: ("/ide_".data ++ (nm ++ ['>'])))) := by
        have := hsplit.1
        injection this with h2
        exact h2.symm
      have hm2 := hsplit.2
      rw [heq] at hm2
      exact hno ((matchLit_wordgt "opened_file".data hopw nm _ r hn hm2).symm)
  · have hV : noOcc open1Tag ('<' :: ("/ide_".data ++ (nm ++ ['>']))) := by
      rw [show open1Tag = '<' :: "ide_opened_file>".data from rfl]
      rw [noOcc_cons]
      constructor
      · rw [matchLit, if_pos rfl]
        rw [show "ide_opened_file>".data = 'i' :: "de_opened_file>".data from rfl]
        rw [show ("/ide_".data ++ (nm ++ ['>'])) =
          '/' :: ("ide_".data ++ (nm ++ ['>'])) from rfl]
        exact matchLit_head_ne _ _ _ _ (by decide)
      · apply noOcc_all_ne
        intro c hc
        rcases List.mem_append.1 hc with h1 | h2
        · exact mem_slashide_ne_lt c h1
        · rcases List.mem_append.1 h2 with h3 | h4
          · exact word_ne_lt c (hn c h3)
          · rcases List.mem_singleton.1 h4 with rfl
            decide
    have hA : "ide_".data ++ (nm ++ '>' :: (body ++ ('<' :: ("/ide_".data ++ (nm ++ ['>']))))) =
        ("ide_".data ++ (nm ++ '>' :: body)) ++ ('<' :: ("/ide_".data ++ (nm ++ ['>']))) := by
      simp [List.append_assoc]
    rw [hA, show open1Tag = '<' :: "ide_opened_file>".data from rfl]
    apply noOcc_append_ne
    · intro c hc
      rcases List.mem_append.1 hc with h1 | h2
      · exact mem_ide_ne_lt c h1
      · rcases List.mem_append.1 h2 with h3 | h4
        · exact word_ne_lt c (hn c h3)
        · rcases List.mem_cons.1 h4 with rfl | h5
          · decide
          · exact hb c h5
    · exact hV

theorem clean_wrapped (nm body : String) (hne : nm.data ≠ [])
    (hn : ∀ c ∈ nm.data, isWordChar c = true) (hb : ∀ c ∈ body.data, c ≠ '<') :
    clean_prompt ("<ide_" ++ nm ++ ">" ++ body ++ "</ide_" ++ nm ++ ">") = "" := by
  have hdata : ("<ide_" ++ nm ++ ">" ++ body ++ "</ide_" ++ nm ++ ">").data =
      '<' :: ("ide_".data ++ (nm.data ++ '>' :: (body.data ++
        ('<' :: ("/ide_".data ++ (nm.data ++ ['>'])))))) := by
    simp only [str_data_append]
    simp [List.append_assoc]
  rw [clean_prompt, hdata]
  by_cases hcase : nm.data = "opened_file".data
  · have hfull : '<' :: ("ide_".data ++ (nm.data ++ '>' :: (body.data ++
        ('<' :: ("/ide_".data ++ (nm.data ++ ['>'])))))) =
        '<' :: ("ide_opened_file>".data ++ (body.data ++ close1Tag)) := by
      rw [hcase]
      simp [close1Tag, List.append_assoc]
    rw [hfull]
    have hspan : span1At ('<' :: ("ide_opened_file>".data ++ (body.data ++ close1Tag))) =
        some [] := span1At_full body.data hb
    rw [sub_spans1_some _ _ _ hspan, sub_spans1_nil, sub_spans2_nil]
    rfl
  · have hocc := noOcc_open1_wrapped nm.data body.data hn hb hcase
    rw [sub_spans1_id _ hocc]
    have hspan2 : span2At ('<' :: ("ide_".data ++ (nm.data ++ '>' :: (body.data ++
        ('<' :: ("/ide_".data ++ (nm.data ++ ['>'])))))))
        = some [] := span2At_full nm.data body.data hne hn hb
    rw [sub_spans2_some _ _ _ hspan2, sub_spans2_nil]
    rfl

/-- C9: on a text with no recognized markup spans (no occurrence of the
`<ide_` opener anywhere) the Sanitizer is idempotent — running it twice
equals running it once; and a text consisting of one recognized tag pair
(`<ide_NAME>`, word-character name) wrapping a markup-free body is
removed in full, opening and closing tags included. -/
theorem sanitizer_spec (t nm body : String)
    (ht : noOcc openMark t.data)
    (hne : nm.data ≠ []) (hn : ∀ c ∈ nm.data, isWordChar c = true)
    (hb : ∀ c ∈ body.data, c ≠ '<') :
    clean_prompt (clean_prompt t) = clean_prompt t ∧
    clean_prompt ("<ide_" ++ nm ++ ">" ++ body ++ "</ide_" ++ nm ++ ">") = "" :=
  ⟨clean_idem_of_noOcc t ht, clean_wrapped nm body hne hn hb⟩

/-- C9 witness: a concrete clean prompt is a fixed point after one pass,
and `<ide_x>open file ctx</ide_x>` sanitizes to the empty string. -/
theorem sanitizer_spec_witness :
    clean_prompt (clean_prompt "fix the bug") = clean_prompt "fix the bug" ∧
    clean_prompt ("<ide_" ++ "x" ++ ">" ++ "open file ctx" ++ "</ide_" ++ "x" ++ ">") =
      "" :=
  sanitizer_spec "fix the bug" "x" "open file ctx"
    (noOcc_all_ne '<' "ide_".data "fix the bug".data (by decide))
    (by decide) (by decide) (by decide)
